import Mathlib

/-!
Verification development for the `AsmDecorator` core of the cxx-compiler-explorer
extension (`src/decorator.ts`): the source/assembly line-correspondence index,
the selection-synchronization handlers, the visibility lifecycle and the
unused-source-line dimming.  TypeScript is embedded shallowly: the mutable
`Map<number, number[]>` becomes an insertion-ordered association list with the
`get`/`set` semantics of a JS `Map`, stateful methods become explicit
state-passing functions that also return the list of decoration/reveal calls
they issue, and operations that can throw at runtime (out-of-range `lineAt`,
property access on `undefined`) return `Except`.
-/

namespace CompilerExplorer

/-- The optional source annotation of an assembly line: originating file path
and 1-based source line number (`AsmLine.source` in `src/asm.ts`, as consumed
by `decorator.ts`). The line is an integer; `line - 1` may be negative. -/
structure SourceInfo where
  file : String
  line : Int
deriving Repr, DecidableEq

/-- One line of the assembly listing, as far as `decorator.ts` reads it:
only the optional source annotation matters. -/
structure AsmLine where
  source : Option SourceInfo
deriving Repr, DecidableEq

/-- The decorator's `mappings : Map<number, number[]>`, embedded as an
insertion-ordered association list from source line to assembly line indices. -/
abbrev AsmMap := List (Int × List Nat)

/-- JS `Map.prototype.get`: the value at the first (and only) entry with the
given key, `none` when absent (`undefined`). -/
def mapGet (m : AsmMap) (k : Int) : Option (List Nat) :=
  match m with
  | [] => none
  | (k0, v0) :: rest => if k0 = k then some v0 else mapGet rest k

/-- JS `Map.prototype.set`: replace the value in place when the key exists
(keeping insertion order), otherwise append a new entry at the end. -/
def mapSet (m : AsmMap) (k : Int) (v : List Nat) : AsmMap :=
  match m with
  | [] => [(k, v)]
  | (k0, v0) :: rest => if k0 = k then (k, v) :: rest else (k0, v0) :: mapSet rest k v

/-- Node `path.basename`: ignore trailing `/` separators, then return the
final path component (embedded structurally over the character list so that it
evaluates inside the kernel). -/
def basename (p : String) : String :=
  String.mk (((p.data.reverse.dropWhile (fun c => c == '/')).takeWhile
    (fun c => !(c == '/'))).reverse)

/-- JS `String.prototype.endsWith(post)`, embedded structurally over the
strings' character lists so that it evaluates inside the kernel. -/
def endsWith (s post : String) : Bool :=
  post.data.isSuffixOf s.data

/-- `AsmDecorator.asmLineHasSource` (decorator.ts lines 85-102): the line has a
source annotation and the source editor's path ends with the annotation's file
basename. `sourcePath` stands for `this.srcEditor.document.uri.path`. -/
def asmLineHasSource (sourcePath : String) (asmLine : AsmLine) : Bool :=
  match asmLine.source with
  | none => false
  | some s => endsWith sourcePath (basename s.file)

/-- The body of the `forEach` in `AsmDecorator.loadMappings` (decorator.ts
lines 107-116) for one listing line at position `index`: skip lines without
matching source; otherwise create the bucket for `source.line - 1` when absent
and push `index` onto it. -/
def loadMappingsStep (sourcePath : String) (m : AsmMap) (index : Nat) (line : AsmLine) : AsmMap :=
  if asmLineHasSource sourcePath line then
    match line.source with
    | none => m
    | some s =>
      let sourceLine : Int := s.line - 1
      let m1 := if mapGet m sourceLine = none then mapSet m sourceLine [] else m
      mapSet m1 sourceLine ((mapGet m1 sourceLine).getD [] ++ [index])
  else m

/-- `AsmDecorator.loadMappings` (decorator.ts lines 104-117): clear the map and
fold the per-line step over the listing with its 0-based indices. -/
def loadMappings (sourcePath : String) (lines : List AsmLine) : AsmMap :=
  lines.enum.foldl (fun m p => loadMappingsStep sourcePath m p.1 p.2) []

/-- Specification-side predicate (spec §8, index correctness): listing line
`line` maps to source line `s` iff it carries an annotation whose file
basename is a suffix of the source path and whose line − 1 equals `s`. -/
def lineMatches (sourcePath : String) (s : Int) (line : AsmLine) : Bool :=
  match line.source with
  | none => false
  | some src => endsWith sourcePath (basename src.file) && decide (src.line - 1 = s)

/-- `AsmDecorator.dimUnusedSourceLines` (decorator.ts lines 144-152), the range
computation: the 0-based source lines below the source view's line count with
no bucket in the mappings (ranges are identified with their line numbers). -/
def dimUnusedSourceLines (m : AsmMap) (lineCount : Nat) : List Nat :=
  (List.range lineCount).filter (fun line => (mapGet m (line : Int)).isNone)

/-- The ambient host data a handler reads: the source editor's path, both
editors' line counts, the editors' current selection start lines, the
`dimUnusedSourceLines` configuration value, the provider's current listing
(`provideAsmDocument(uri).lines`) and the canonical string of the tracked
listing uri (`uri.toString()`). -/
structure Env where
  srcPath : String
  srcLineCount : Nat
  asmLineCount : Nat
  srcSelectionLine : Nat
  asmSelectionLine : Nat
  dimUnusedConfig : Bool
  providerLines : List AsmLine
  asmUriStr : String
deriving Repr, DecidableEq

/-- The decorator's mutable state: the visibility flag, the cached
`document.lines`, the mappings, and the decorations currently applied to each
view/decoration-type pair (a decoration set is a list of line numbers). -/
structure DecoratorState where
  visible : Bool
  document : List AsmLine
  mappings : AsmMap
  srcSelected : List Nat
  asmSelected : List Nat
  srcUnused : List Nat
deriving Repr, DecidableEq

/-- One call issued to the host: a `setDecorations` on a view with a given
decoration type (full-replace semantics) or a `revealRange`. -/
inductive Effect where
  | setSrcSelected (ranges : List Nat)
  | setAsmSelected (ranges : List Nat)
  | setSrcUnused (ranges : List Nat)
  | revealSrc (range : Nat)
  | revealAsm (range : Nat)
deriving Repr, DecidableEq

/-- A runtime fault of the TypeScript code: `document.lineAt` on an
out-of-range line throws, and a property access on `undefined` throws. -/
inductive Fault where
  | lineAtOutOfRange
  | undefinedAccess
deriving Repr, DecidableEq

/-- Which editor raised a selection event, as decided by the reference
comparisons `editor === this.srcEditor` / `editor === this.asmEditor`. -/
inductive EditorRole where
  | src
  | asm
  | other
deriving Repr, DecidableEq

/-- `this.srcEditor.document.lineAt(i).range`: the line's range (identified
with the line number) when `0 ≤ i < lineCount`, otherwise a thrown fault. -/
def lineAtSrc (env : Env) (i : Int) : Except Fault Nat :=
  if 0 ≤ i ∧ i < (env.srcLineCount : Int) then Except.ok i.toNat
  else Except.error Fault.lineAtOutOfRange

/-- `this.asmEditor.document.lineAt(i).range`, as `lineAtSrc`. -/
def lineAtAsm (env : Env) (i : Int) : Except Fault Nat :=
  if 0 ≤ i ∧ i < (env.asmLineCount : Int) then Except.ok i.toNat
  else Except.error Fault.lineAtOutOfRange

/-- `AsmDecorator.srcLineSelected` (decorator.ts lines 154-173): highlight the
selected source line, translate its bucket to in-range assembly ranges,
apply them as the assembly selection decoration and reveal the first one. -/
def srcLineSelected (env : Env) (st : DecoratorState) (line : Nat) :
    Except Fault (DecoratorState × List Effect) := do
  let srcLineRange ← lineAtSrc env (line : Int)
  let st1 := { st with srcSelected := [srcLineRange] }
  let asmLinesRanges :=
    match mapGet st.mappings (line : Int) with
    | none => []
    | some mapped => mapped.filter (fun l => l < env.asmLineCount)
  let st2 := { st1 with asmSelected := asmLinesRanges }
  let effs := [Effect.setSrcSelected [srcLineRange], Effect.setAsmSelected asmLinesRanges]
  if asmLinesRanges.length > 0 then
    return (st2, effs ++ [Effect.revealAsm (asmLinesRanges.headD 0)])
  else
    return (st2, effs)

/-- `AsmDecorator.asmLineSelected` (decorator.ts lines 175-188):
`this.document.lines[line]` is JS indexing and yields `undefined` out of
range; the later `asmLine.source` access then throws. Otherwise highlight the
assembly line and either highlight-and-reveal the resolved source line or
clear the source selection decoration. -/
def asmLineSelected (env : Env) (st : DecoratorState) (line : Nat) :
    Except Fault (DecoratorState × List Effect) := do
  let asmLine := st.document[line]?
  let asmLineRange ← lineAtAsm env (line : Int)
  let st1 := { st with asmSelected := [asmLineRange] }
  let effs := [Effect.setAsmSelected [asmLineRange]]
  match asmLine with
  | none => throw Fault.undefinedAccess
  | some al =>
    if asmLineHasSource env.srcPath al then
      match al.source with
      | none => throw Fault.undefinedAccess
      | some s => do
        let srcLineRange ← lineAtSrc env (s.line - 1)
        return ({ st1 with srcSelected := [srcLineRange] },
          effs ++ [Effect.setSrcSelected [srcLineRange], Effect.revealSrc srcLineRange])
    else
      return ({ st1 with srcSelected := [] }, effs ++ [Effect.setSrcSelected []])

/-- `AsmDecorator.updateSelection` (decorator.ts lines 119-125): dispatch on
which tracked editor raised the event; events of other editors are ignored.
The selected line is the editor's current `selection.start.line`. -/
def updateSelection (env : Env) (st : DecoratorState) (role : EditorRole) :
    Except Fault (DecoratorState × List Effect) :=
  match role with
  | EditorRole.src => srcLineSelected env st env.srcSelectionLine
  | EditorRole.asm => asmLineSelected env st env.asmSelectionLine
  | EditorRole.other => Except.ok (st, [])

/-- `AsmDecorator.load` (decorator.ts lines 73-83): re-fetch the listing from
the provider, rebuild the mappings, and apply the dim-unused decoration when
the configuration flag is on and the pair is visible. -/
def load (env : Env) (st : DecoratorState) : DecoratorState × List Effect :=
  let st1 := { st with document := env.providerLines }
  let st2 := { st1 with mappings := loadMappings env.srcPath st1.document }
  let dimUnused := env.dimUnusedConfig
  if dimUnused && st2.visible then
    let unused := dimUnusedSourceLines st2.mappings env.srcLineCount
    ({ st2 with srcUnused := unused }, [Effect.setSrcUnused unused])
  else (st2, [])

/-- The provider `onDidChange` subscription body (decorator.ts lines 41-45):
reload iff the changed uri's canonical string equals the tracked one. -/
def onProviderChange (env : Env) (st : DecoratorState) (changedUriStr : String) :
    DecoratorState × List Effect :=
  if changedUriStr = env.asmUriStr then load env st else (st, [])

/-- `AsmDecorator.updateVisibility` (decorator.ts lines 127-142): no-op when
the recomputed visibility equals the stored one; on becoming visible reload;
on becoming hidden clear the selected decorations of both views and the
unused decoration of the source view. -/
def updateVisibility (env : Env) (st : DecoratorState) (visible : Bool) :
    DecoratorState × List Effect :=
  if visible = st.visible then (st, [])
  else
    let st1 := { st with visible := visible }
    if visible then load env st1
    else
      ({ st1 with asmSelected := [], srcSelected := [], srcUnused := [] },
        [Effect.setAsmSelected [], Effect.setSrcSelected [], Effect.setSrcUnused []])

/-- The state fields as first initialized by the constructor (decorator.ts
lines 17-27): the visibility computed from the visible-editor set, empty
document and mappings, no decorations applied yet. -/
def initialState (visible : Bool) : DecoratorState :=
  { visible := visible, document := [], mappings := [],
    srcSelected := [], asmSelected := [], srcUnused := [] }

/-- The constructor's initial `this.load(uri)` call (decorator.ts line 46)
applied to the initial state. -/
def construct (env : Env) (visible : Bool) : DecoratorState × List Effect :=
  load env (initialState visible)

/-- An effect that applies a decoration to a view (as opposed to a reveal). -/
def isDecorationCall : Effect → Bool
  | Effect.setSrcSelected _ => true
  | Effect.setAsmSelected _ => true
  | Effect.setSrcUnused _ => true
  | Effect.revealSrc _ => false
  | Effect.revealAsm _ => false

/-- A concrete listing (the worked scenario of the specification): one line
without source, two lines from `a.c` line 3, one from `a.c` line 10. -/
def listingA : List AsmLine :=
  [{ source := none },
   { source := some { file := "a.c", line := 3 } },
   { source := some { file := "a.c", line := 3 } },
   { source := some { file := "a.c", line := 10 } }]

/-- A concrete environment around `listingA`: source `/proj/a.c` with 12
lines, a 4-line listing view, dimming enabled. -/
def envA : Env :=
  { srcPath := "/proj/a.c", srcLineCount := 12, asmLineCount := 4,
    srcSelectionLine := 2, asmSelectionLine := 3, dimUnusedConfig := true,
    providerLines := listingA, asmUriStr := "asm:/proj/a.c.S" }

/-- `envA` after the listing view shrank to 2 lines (stale-index scenario). -/
def envB : Env :=
  { envA with asmLineCount := 2 }

/-- The decorator state reached by constructing on `envA` with both views
visible. -/
def stA : DecoratorState := (construct envA true).1

/-- The decorator state reached by constructing on `envA` while hidden. -/
def stH : DecoratorState := (construct envA false).1

/-- Lookup after `mapSet`: the set key now holds the set value, all other
keys are untouched. -/
theorem mapGet_mapSet (m : AsmMap) (k : Int) (v : List Nat) (s : Int) :
    mapGet (mapSet m k v) s = if k = s then some v else mapGet m s := by
  induction m with
  | nil => by_cases h : k = s <;> simp [mapSet, mapGet, h]
  | cons p rest ih =>
    obtain ⟨k0, v0⟩ := p
    by_cases h0 : k0 = k
    · subst h0
      by_cases h : k0 = s <;> simp [mapSet, mapGet, h]
    · by_cases h : k0 = s
      · subst h
        have hks : ¬ k = k0 := fun hh => h0 hh.symm
        simp [mapSet, mapGet, h0, hks]
      · simp [mapSet, mapGet, h0, h, ih]

/-- One `loadMappings` step appends the index to the bucket of the matched
source line and leaves every other bucket unchanged. -/
theorem mapGet_loadMappingsStep (sourcePath : String) (m : AsmMap) (index : Nat)
    (line : AsmLine) (s : Int) :
    mapGet (loadMappingsStep sourcePath m index line) s =
      if lineMatches sourcePath s line then some ((mapGet m s).getD [] ++ [index])
      else mapGet m s := by
  cases hsrc : line.source with
  | none => simp [loadMappingsStep, asmLineHasSource, lineMatches, hsrc]
  | some src =>
    by_cases hend : endsWith sourcePath (basename src.file)
    · by_cases hline : src.line - 1 = s
      · subst hline
        cases hget : mapGet m (src.line - 1) with
        | none =>
          simp [loadMappingsStep, asmLineHasSource, lineMatches, hsrc, hend, hget, mapGet_mapSet]
        | some b =>
          simp [loadMappingsStep, asmLineHasSource, lineMatches, hsrc, hend, hget, mapGet_mapSet]
      · cases hget : mapGet m (src.line - 1) with
        | none =>
          simp [loadMappingsStep, asmLineHasSource, lineMatches, hsrc, hend, hline, hget,
            mapGet_mapSet]
        | some b =>
          simp [loadMappingsStep, asmLineHasSource, lineMatches, hsrc, hend, hline, hget,
            mapGet_mapSet]
    · simp [loadMappingsStep, asmLineHasSource, lineMatches, hsrc, hend]

/-- Folding the `loadMappings` step over indexed listing lines: the bucket of
`s` grows by exactly the indices of the lines matching `s`, in order. -/
theorem mapGet_foldl_step (sourcePath : String) (ps : List (Nat × AsmLine))
    (m : AsmMap) (s : Int) :
    mapGet (ps.foldl (fun acc p => loadMappingsStep sourcePath acc p.1 p.2) m) s =
      if (ps.filter (fun p => lineMatches sourcePath s p.2)).isEmpty then mapGet m s
      else some ((mapGet m s).getD [] ++
        (ps.filter (fun p => lineMatches sourcePath s p.2)).map Prod.fst) := by
  induction ps generalizing m with
  | nil => simp
  | cons p ps ih =>
    rw [List.foldl_cons, ih, mapGet_loadMappingsStep]
    by_cases hm : lineMatches sourcePath s p.2
    · rw [if_pos hm, List.filter_cons_of_pos (by exact hm)]
      by_cases he : (ps.filter (fun p => lineMatches sourcePath s p.2)).isEmpty
      · have hnil : ps.filter (fun p => lineMatches sourcePath s p.2) = [] := by
          simpa using he
        rw [if_pos he, hnil]
        simp
      · rw [if_neg he]
        simp [List.append_assoc]
    · rw [if_neg hm, List.filter_cons_of_neg (by exact hm)]

/-- Characterization of a built bucket: `none` when no listing line matches,
otherwise exactly the ascending list of matching listing indices. -/
theorem mapGet_loadMappings (sourcePath : String) (lines : List AsmLine) (s : Int) :
    mapGet (loadMappings sourcePath lines) s =
      if (lines.enum.filter (fun p => lineMatches sourcePath s p.2)).isEmpty then none
      else some ((lines.enum.filter (fun p => lineMatches sourcePath s p.2)).map Prod.fst) := by
  unfold loadMappings
  rw [mapGet_foldl_step]
  simp [mapGet]

/-- The indices of a filtered enumeration are strictly increasing. -/
theorem sorted_filter_enum_map_fst (lines : List AsmLine) (P : Nat × AsmLine → Bool) :
    List.Sorted (· < ·) ((lines.enum.filter P).map Prod.fst) := by
  have hsub : List.Sublist ((lines.enum.filter P).map Prod.fst) (lines.enum.map Prod.fst) :=
    (List.filter_sublist _).map Prod.fst
  rw [List.enum_map_fst] at hsub
  exact (List.sorted_lt_range _).sublist hsub

/-- C1 (index build correctness): after a rebuild, the bucket of any source
line `s` — including negative or out-of-range `s` — holds exactly the listing
indices `i` such that line `i` carries a source annotation whose file basename
is a suffix of the source path and whose line − 1 equals `s`, and the bucket
is in ascending listing order. -/
theorem loadMappings_bucket_exact (sourcePath : String) (lines : List AsmLine) (s : Int) :
    (mapGet (loadMappings sourcePath lines) s).getD [] =
      (lines.enum.filter (fun p => lineMatches sourcePath s p.2)).map Prod.fst ∧
    List.Sorted (· < ·) ((mapGet (loadMappings sourcePath lines) s).getD []) := by
  have hchar := mapGet_loadMappings sourcePath lines s
  have hsorted := sorted_filter_enum_map_fst lines (fun p => lineMatches sourcePath s p.2)
  by_cases he : (lines.enum.filter (fun p => lineMatches sourcePath s p.2)).isEmpty
  · have hnil : (lines.enum.filter (fun p => lineMatches sourcePath s p.2)) = [] := by
      simpa using he
    rw [hchar]
    simp [he, hnil]
  · rw [hchar]
    simp only [he, if_false, Option.getD_some]
    exact ⟨rfl, hsorted⟩

/-- C10 (non-empty-bucket invariant): every key of a freshly built index has a
non-empty bucket, and a source line below the source line count is dimmed as
unused exactly when no listing line maps to it. -/
theorem loadMappings_buckets_nonempty_dim_iff (sourcePath : String) (lines : List AsmLine)
    (lineCount : Nat) :
    (∀ s b, mapGet (loadMappings sourcePath lines) s = some b → b ≠ []) ∧
    (∀ line : Nat, line ∈ dimUnusedSourceLines (loadMappings sourcePath lines) lineCount ↔
      line < lineCount ∧
        ∀ p ∈ lines.enum, lineMatches sourcePath (line : Int) p.2 = false) := by
  constructor
  · intro s b hb
    have hchar := mapGet_loadMappings sourcePath lines s
    rw [hb] at hchar
    by_cases he : (lines.enum.filter (fun p => lineMatches sourcePath s p.2)).isEmpty
    · simp [he] at hchar
    · have hnil : (lines.enum.filter (fun p => lineMatches sourcePath s p.2)) ≠ [] := by
        simpa using he
      rw [if_neg he] at hchar
      have hbe : b = (lines.enum.filter (fun p => lineMatches sourcePath s p.2)).map Prod.fst :=
        Option.some.inj hchar
      subst hbe
      simp [List.map_eq_nil_iff, hnil]
  · intro line
    have hchar := mapGet_loadMappings sourcePath lines (line : Int)
    have hfe : (lines.enum.filter
          (fun p => lineMatches sourcePath (line : Int) p.2)).isEmpty = true ↔
        ∀ p ∈ lines.enum, lineMatches sourcePath (line : Int) p.2 = false := by
      rw [List.isEmpty_iff, List.filter_eq_nil_iff]
      simp
    have hiff : mapGet (loadMappings sourcePath lines) (line : Int) = none ↔
        ∀ p ∈ lines.enum, lineMatches sourcePath (line : Int) p.2 = false := by
      by_cases he : (lines.enum.filter
          (fun p => lineMatches sourcePath (line : Int) p.2)).isEmpty
      · constructor
        · intro _
          exact hfe.mp he
        · intro _
          rw [hchar]
          simp [he]
      · constructor
        · intro h
          rw [hchar] at h
          simp [he] at h
        · intro hall
          exact absurd (hfe.mpr hall) he
    rw [dimUnusedSourceLines, List.mem_filter, List.mem_range]
    simp only [Option.isNone_iff_eq_none]
    exact and_congr_right (fun _ => hiff)

/-- C7 (reload idempotence): with the listing content and source view fixed,
a second reload yields the same correspondence index and the same
unused-source-line set as the first. -/
theorem load_idempotent (env : Env) (st : DecoratorState) :
    (load env (load env st).1).1.mappings = (load env st).1.mappings ∧
    dimUnusedSourceLines (load env (load env st).1).1.mappings env.srcLineCount =
      dimUnusedSourceLines (load env st).1.mappings env.srcLineCount := by
  unfold load
  by_cases h : (env.dimUnusedConfig && st.visible) = true <;> simp [h]

/-- C8 (visibility no-op frame): a visibility-change event whose recomputed
value equals the stored one changes nothing: no reload, no decoration call,
unchanged state. -/
theorem updateVisibility_noop_on_equal (env : Env) (st : DecoratorState) (v : Bool)
    (h : v = st.visible) :
    updateVisibility env st v = (st, []) := by
  simp [updateVisibility, h]

/-- Witness for C8 at a concrete visible state. -/
theorem updateVisibility_noop_on_equal_witness :
    updateVisibility envA stA true = (stA, []) :=
  updateVisibility_noop_on_equal envA stA true (by decide)

/-- C6 (provider-change gating): a provider change notification reloads iff
the changed uri's canonical string equals the tracked listing uri; the reload
rebuilds the index regardless of visibility, and applies the dim-unused
decoration exactly when the dim flag is on and the pair is visible. -/
theorem onProviderChange_gating (env : Env) (st : DecoratorState) (changed : String) :
    (changed ≠ env.asmUriStr → onProviderChange env st changed = (st, [])) ∧
    (changed = env.asmUriStr →
      (onProviderChange env st changed).1.document = env.providerLines ∧
      (onProviderChange env st changed).1.mappings =
        loadMappings env.srcPath env.providerLines ∧
      (onProviderChange env st changed).1.visible = st.visible ∧
      ((∃ rs, Effect.setSrcUnused rs ∈ (onProviderChange env st changed).2) ↔
        (env.dimUnusedConfig && st.visible) = true) ∧
      (∀ rs, Effect.setSrcUnused rs ∈ (onProviderChange env st changed).2 →
        rs = dimUnusedSourceLines (loadMappings env.srcPath env.providerLines)
          env.srcLineCount)) := by
  constructor
  · intro h
    simp [onProviderChange, h]
  · intro h
    by_cases hd : (env.dimUnusedConfig && st.visible) = true <;>
      simp [onProviderChange, h, load, hd]

/-- Witness for C6: an unrelated uri triggers nothing. -/
theorem onProviderChange_gating_witness :
    onProviderChange envA stA "other:uri" = (stA, []) :=
  (onProviderChange_gating envA stA "other:uri").1 (by decide)

/-- `lineAt` on the source view succeeds on an in-range natural line. -/
theorem lineAtSrc_ok (env : Env) (s : Nat) (hs : s < env.srcLineCount) :
    lineAtSrc env (s : Int) = Except.ok s := by
  rw [lineAtSrc, if_pos ⟨Int.natCast_nonneg s, by exact_mod_cast hs⟩, Int.toNat_natCast]

/-- `lineAt` on the listing view succeeds on an in-range natural line. -/
theorem lineAtAsm_ok (env : Env) (s : Nat) (hs : s < env.asmLineCount) :
    lineAtAsm env (s : Int) = Except.ok s := by
  rw [lineAtAsm, if_pos ⟨Int.natCast_nonneg s, by exact_mod_cast hs⟩, Int.toNat_natCast]

/-- C4 (no mapping clears the opposite view): selecting a source line with no
bucket in the index replaces the listing view's selected decoration with the
empty set and issues no reveal of the listing view. -/
theorem srcLineSelected_no_mapping_clears_asm (env : Env) (st : DecoratorState) (s : Nat)
    (hs : s < env.srcLineCount) (hnone : mapGet st.mappings (s : Int) = none) :
    srcLineSelected env st s =
      Except.ok ({ st with srcSelected := [s], asmSelected := [] },
        [Effect.setSrcSelected [s], Effect.setAsmSelected []]) := by
  simp [srcLineSelected, lineAtSrc_ok env s hs, hnone]

/-- Witness for C4: selecting unmapped source line 5 of the scenario clears
the listing highlight without revealing. -/
theorem srcLineSelected_no_mapping_clears_asm_witness :
    srcLineSelected envA stA 5 =
      Except.ok ({ stA with srcSelected := [5], asmSelected := [] },
        [Effect.setSrcSelected [5], Effect.setAsmSelected []]) :=
  srcLineSelected_no_mapping_clears_asm envA stA 5 (by decide) (by decide)

/-- C5 (stale-index tolerance): bucket entries at or beyond the listing
view's line count are silently dropped, without any fault, and all in-range
entries of the bucket are applied together as the listing selection. -/
theorem srcLineSelected_stale_entries_skipped (env : Env) (st : DecoratorState) (s : Nat)
    (bucket : List Nat) (hs : s < env.srcLineCount)
    (hb : mapGet st.mappings (s : Int) = some bucket) :
    ∃ st1 effs, srcLineSelected env st s = Except.ok (st1, effs) ∧
      st1.asmSelected = bucket.filter (fun l => l < env.asmLineCount) ∧
      Effect.setAsmSelected (bucket.filter (fun l => l < env.asmLineCount)) ∈ effs := by
  by_cases hl : 0 < (bucket.filter (fun l => l < env.asmLineCount)).length
  · refine ⟨{ st with srcSelected := [s], asmSelected := bucket.filter (fun l => l < env.asmLineCount) },
      [Effect.setSrcSelected [s],
       Effect.setAsmSelected (bucket.filter (fun l => l < env.asmLineCount)),
       Effect.revealAsm ((bucket.filter (fun l => l < env.asmLineCount)).headD 0)],
      ?_, rfl, by simp⟩
    simp [srcLineSelected, lineAtSrc_ok env s hs, hb, hl]
  · refine ⟨{ st with srcSelected := [s], asmSelected := bucket.filter (fun l => l < env.asmLineCount) },
      [Effect.setSrcSelected [s],
       Effect.setAsmSelected (bucket.filter (fun l => l < env.asmLineCount))],
      ?_, rfl, by simp⟩
    simp [srcLineSelected, lineAtSrc_ok env s hs, hb, hl]

/-- Witness for C5: with the listing view shrunk to 2 lines, bucket `[1, 2]`
of source line 2 is applied as `[1]`; entry 2 is dropped without fault. -/
theorem srcLineSelected_stale_entries_skipped_witness :
    ∃ st1 effs, srcLineSelected envB stA 2 = Except.ok (st1, effs) ∧
      st1.asmSelected = [1, 2].filter (fun l => l < envB.asmLineCount) ∧
      Effect.setAsmSelected ([1, 2].filter (fun l => l < envB.asmLineCount)) ∈ effs :=
  srcLineSelected_stale_entries_skipped envB stA 2 [1, 2] (by decide) (by decide)

/-- C9 (listing-selection bounds precondition): when the selected listing line
is at or beyond the cached listing's length (but within the listing view, so
`lineAt` itself succeeds), reading the line's source annotation faults: the
handler is total only under the precondition that the index is in range. -/
theorem asmLineSelected_out_of_range_faults (env : Env) (st : DecoratorState) (line : Nat)
    (hlen : st.document.length ≤ line) (hcnt : line < env.asmLineCount) :
    asmLineSelected env st line = Except.error Fault.undefinedAccess := by
  have hnone : st.document[line]? = none := List.getElem?_eq_none hlen
  simp only [asmLineSelected, hnone, lineAtAsm_ok env line hcnt]
  rfl

/-- Witness for C9: a cached listing truncated to 2 lines faults on
selection of listing line 3. -/
theorem asmLineSelected_out_of_range_faults_witness :
    asmLineSelected envA { stA with document := listingA.take 2 } 3 =
      Except.error Fault.undefinedAccess :=
  asmLineSelected_out_of_range_faults envA { stA with document := listingA.take 2 } 3
    (by decide) (by decide)

/-- C3 (round-trip locality): if source line `s` has bucket `i0 :: rest` and
listing line `i0` still carries an annotation matching the current source
view with line − 1 = `s`, then selecting source line `s` and then listing
line `i0` ends with source line `s` as the source view's selected
decoration. -/
theorem roundTrip_selection_rehighlights_source (env : Env) (st : DecoratorState)
    (s i0 : Nat) (rest : List Nat) (info : SourceInfo)
    (hbucket : mapGet st.mappings (s : Int) = some (i0 :: rest))
    (hdoc : st.document[i0]? = some { source := some info })
    (hend : endsWith env.srcPath (basename info.file) = true)
    (hline : info.line - 1 = (s : Int))
    (hs : s < env.srcLineCount)
    (hi0 : i0 < env.asmLineCount) :
    ∃ st1 e1 st2 e2,
      srcLineSelected env st s = Except.ok (st1, e1) ∧
      asmLineSelected env st1 i0 = Except.ok (st2, e2) ∧
      st2.srcSelected = [s] := by
  have hokS2 : lineAtSrc env (info.line - 1) = Except.ok s := by
    rw [hline]
    exact lineAtSrc_ok env s hs
  refine ⟨{ st with srcSelected := [s], asmSelected := i0 :: rest.filter (fun l => l < env.asmLineCount) },
    [Effect.setSrcSelected [s],
     Effect.setAsmSelected (i0 :: rest.filter (fun l => l < env.asmLineCount)),
     Effect.revealAsm i0],
    { st with srcSelected := [s], asmSelected := [i0] },
    [Effect.setAsmSelected [i0], Effect.setSrcSelected [s], Effect.revealSrc s],
    ?_, ?_, rfl⟩
  · simp [srcLineSelected, lineAtSrc_ok env s hs, hbucket, hi0]
  · simp only [asmLineSelected, lineAtAsm_ok env i0 hi0, hdoc, asmLineHasSource, hend, hokS2]
    rfl

/-- Witness for C3 on the scenario: source line 2, bucket `[1, 2]`, listing
line 1 annotated `a.c:3`; the round trip re-selects source line 2. -/
theorem roundTrip_selection_rehighlights_source_witness :
    ∃ st1 e1 st2 e2,
      srcLineSelected envA stA 2 = Except.ok (st1, e1) ∧
      asmLineSelected envA st1 1 = Except.ok (st2, e2) ∧
      st2.srcSelected = [2] :=
  roundTrip_selection_rehighlights_source envA stA 2 1 [2] { file := "a.c", line := 3 }
    (by decide) (by decide) (by decide) (by decide) (by decide) (by decide)

/-- The source-selection handler neither reads nor changes the visibility
flag: it commutes with updating `visible`. -/
theorem srcLineSelected_visible_frame (env : Env) (st : DecoratorState) (line : Nat)
    (v : Bool) :
    srcLineSelected env { st with visible := v } line =
      (srcLineSelected env st line).map (fun p => ({ p.1 with visible := v }, p.2)) := by
  cases h : lineAtSrc env (line : Int) with
  | error e => simp [srcLineSelected, h, Except.map, Bind.bind, Except.bind, pure, Except.pure, throw, throwThe, MonadExceptOf.throw]
  | ok r =>
    simp only [srcLineSelected, h, Bind.bind, Except.bind]
    split <;> simp [Except.map, pure, Except.pure]

/-- The listing-selection handler neither reads nor changes the visibility
flag: it commutes with updating `visible`. -/
theorem asmLineSelected_visible_frame (env : Env) (st : DecoratorState) (line : Nat)
    (v : Bool) :
    asmLineSelected env { st with visible := v } line =
      (asmLineSelected env st line).map (fun p => ({ p.1 with visible := v }, p.2)) := by
  cases hd : st.document[line]? with
  | none =>
    cases h : lineAtAsm env (line : Int) with
    | error e => simp [asmLineSelected, hd, h, Except.map, Bind.bind, Except.bind, pure, Except.pure, throw, throwThe, MonadExceptOf.throw]
    | ok r => simp [asmLineSelected, hd, h, Except.map, Bind.bind, Except.bind, pure, Except.pure, throw, throwThe, MonadExceptOf.throw]
  | some al =>
    cases h : lineAtAsm env (line : Int) with
    | error e => simp [asmLineSelected, hd, h, Except.map, Bind.bind, Except.bind, pure, Except.pure, throw, throwThe, MonadExceptOf.throw]
    | ok r =>
      cases hsrc : al.source with
      | none => simp [asmLineSelected, hd, h, asmLineHasSource, hsrc, Except.map, Bind.bind, Except.bind, pure, Except.pure, throw, throwThe, MonadExceptOf.throw]
      | some info =>
        by_cases hend : endsWith env.srcPath (basename info.file)
        · cases h2 : lineAtSrc env (info.line - 1) with
          | error e =>
            simp [asmLineSelected, hd, h, asmLineHasSource, hsrc, hend, h2, Except.map, Bind.bind, Except.bind, pure, Except.pure, throw, throwThe, MonadExceptOf.throw]
          | ok r2 =>
            simp [asmLineSelected, hd, h, asmLineHasSource, hsrc, hend, h2, Except.map, Bind.bind, Except.bind, pure, Except.pure, throw, throwThe, MonadExceptOf.throw]
        · simp [asmLineSelected, hd, h, asmLineHasSource, hsrc, hend, Except.map, Bind.bind, Except.bind, pure, Except.pure, throw, throwThe, MonadExceptOf.throw]

/-- C2 counterexample: in the reachable hidden state right after construction
(`stH.visible = false`), an incoming selection event on the tracked source
view issues decoration applications to both views — the claim that a hidden
pair handles selection events without decoration calls is false. -/
theorem updateSelection_hidden_issues_decorations_cex :
    stH.visible = false ∧
    updateSelection envA stH EditorRole.src =
      Except.ok ({ stH with srcSelected := [2], asmSelected := [1, 2] },
        [Effect.setSrcSelected [2], Effect.setAsmSelected [1, 2], Effect.revealAsm 1]) ∧
    ([Effect.setSrcSelected [2], Effect.setAsmSelected [1, 2],
      Effect.revealAsm 1].any isDecorationCall) = true :=
  ⟨by decide, by rfl, by rfl⟩

/-- C2 (amended): the selection path never consults the stored visibility
state — handling a selection event while hidden issues exactly the decoration
and reveal calls it would issue while visible; decorations are cleared only
at the Visible→Hidden transition. -/
theorem updateSelection_effects_ignore_visibility (env : Env) (st : DecoratorState)
    (role : EditorRole) (v : Bool) :
    (updateSelection env { st with visible := v } role).map (fun p => p.2) =
      (updateSelection env st role).map (fun p => p.2) := by
  cases role with
  | src =>
    simp only [updateSelection, srcLineSelected_visible_frame]
    cases srcLineSelected env st env.srcSelectionLine <;> simp [Except.map]
  | asm =>
    simp only [updateSelection, asmLineSelected_visible_frame]
    cases asmLineSelected env st env.asmSelectionLine <;> simp [Except.map]
  | other => rfl

end CompilerExplorer
